import Mathlib

/-!
Verification of the retrieval-and-ranking pipeline of the GraphRAG
customer-service QA system (`app/retrieval_system.py`), as a shallow
embedding.  External services (the ollama embedding model, the Qdrant
vector index, the Neo4j graph store and the chat LLM) are modelled as
oracle functions collected in an `Adapters` record; each oracle returns
`Except Unit _` so that a raised exception at a call site is an explicit
`error` value.  Python dicts are modelled as insertion-ordered association
lists, floats as rationals, and Python string methods used in the code
(`strip`, `replace`, `upper`, `startswith`, slicing) as executable
functions on `List Char`.
-/

attribute [local semireducible] Rat.add Rat.mul Rat.sub Rat.inv

namespace RagKG

/-- A Python value that may arrive where a string is expected: the scoring
loop of `retrieve` passes the whole value *list* of an entity category to
`retrieve_from_vectors`, while the legacy path passes a plain string. -/
inductive PyStr where
  | str : String → PyStr
  | strList : List String → PyStr
deriving DecidableEq

/-- A Python dict with string keys and string values (a vector-hit payload,
a Neo4j record, a node property map). -/
abbrev Row := List (String × String)

/-- Python `d[k]` / `d.get(k)`: first entry with the given key. -/
def dictGet {α : Type} : List (String × α) → String → Option α
  | [], _ => none
  | p :: rest, k => if p.1 = k then some p.2 else dictGet rest k

/-- Python `d.get(k, v)`. -/
def dictGetD {α : Type} (d : List (String × α)) (k : String) (v : α) : α :=
  (dictGet d k).getD v

/-- Python `d[k] = v`: replace the first entry with the key in place,
else append a new entry (insertion-ordered dict assignment). -/
def dictSet {α : Type} : List (String × α) → String → α → List (String × α)
  | [], k, v => [(k, v)]
  | p :: rest, k, v => if p.1 = k then (k, v) :: rest else p :: dictSet rest k v

/-- Whitespace as recognised by Python `str.strip()` (the characters that
occur in this code base). -/
def isSpace (c : Char) : Bool := c = ' ' ∨ c = '\t' ∨ c = '\n' ∨ c = '\r'

/-- Python `str.strip()`. -/
def pyStrip (s : String) : String :=
  String.mk (((s.data.dropWhile isSpace).reverse.dropWhile isSpace).reverse)

/-- Replace every (leftmost, non-overlapping) occurrence of `old` by `new`,
scanning left to right and never rescanning the replacement text.  The
fuel argument only bounds the recursion (it starts at the input length
and a replaced occurrence always consumes at least one character, so it
never runs out); with an empty `old` the input is returned unchanged (the
code only replaces non-empty fence markers). -/
def listReplaceAux (old new : List Char) : Nat → List Char → List Char
  | _, [] => []
  | 0, l => l
  | fuel + 1, c :: cs =>
    if old ≠ [] ∧ old.isPrefixOf (c :: cs) then
      new ++ listReplaceAux old new fuel ((c :: cs).drop old.length)
    else
      c :: listReplaceAux old new fuel cs

/-- Python `str.replace(old, new)`. -/
def pyReplace (s old new : String) : String :=
  String.mk (listReplaceAux old.data new.data s.data.length s.data)

/-- ASCII upper-casing of a character (what Python `str.upper()` does on
the ASCII text handled here). -/
def upChar (c : Char) : Char :=
  if 'a' ≤ c ∧ c ≤ 'z' then Char.ofNat (c.toNat - 32) else c

/-- Python `str.upper()`. -/
def pyUpper (s : String) : String := String.mk (s.data.map upChar)

/-- Python `str.startswith(pre)`. -/
def pyStartsWith (s pre : String) : Bool := pre.data.isPrefixOf s.data

/-- Python `s[:n]` on a string. -/
def pyTake (s : String) (n : Nat) : String := String.mk (s.data.take n)

/-- Python `str(data)` on a record/dict: a deterministic serialization.  (The
rendering differs textually from Python `repr`; no claim reads this text.) -/
def strRow (r : Row) : String :=
  String.intercalate ", " (r.map fun p => p.1 ++ ": " ++ p.2)

/-- Python `a or b` on optional strings: `b` when `a` is `None` or empty. -/
def pyOrStr : Option String → String → String
  | some s, d => if s = "" then d else s
  | none, d => d

/-- An evidence dict as it flows through the retrieval code.  Keys absent
from a given construction site keep their stated defaults (Python dicts
simply lack those keys until someone assigns them). -/
structure Node where
  ticket_id : String := ""
  node_type : String := ""
  text : String := ""
  score : ℚ := 0
  source : String := ""
  title : String := ""
  description : String := ""
  status : String := ""
  priority : String := ""
  vector_id : Nat := 0
  node_id : String := ""
deriving DecidableEq

/-- A Qdrant search hit: payload, similarity score, point id. -/
structure VHit where
  payload : Row
  score : ℚ
  id : Nat
deriving DecidableEq

/-- A Neo4j node as seen from the legacy graph query: labels and a
property map. -/
structure GraphNode where
  labels : List String
  props : Row
deriving DecidableEq

/-- A record returned by the legacy graph query: the matched `Issue` node
and the collected related nodes. -/
structure GraphRecord where
  issue : Row
  related : List GraphNode
deriving DecidableEq

/-- The external collaborators of `RetrievalSystem`, as oracles.  `embed`
is `ollama.embeddings`, `qsearch` is `qdrant_client.search` (arguments:
query vector, limit, score threshold), `llm` is the `ollama.chat` call of
`_extract_subgraph` (arguments: user query, ticket id — the two dynamic
parts of the prompt), `graphRun` is `session.run` on a generated Cypher
string, `graphLegacy` is `session.run` of `retrieve_from_graph`
(arguments: cypher, $products, $errors).  `hasNeo4j` / `hasQdrant` model
whether `self.neo4j_driver` / `self.qdrant_client` are set. -/
structure Adapters where
  hasNeo4j : Bool
  hasQdrant : Bool
  embed : PyStr → Except Unit (List ℚ)
  qsearch : List ℚ → Nat → ℚ → Except Unit (List VHit)
  llm : String → String → Except Unit String
  graphRun : String → Except Unit (List Row)
  graphLegacy : String → List String → List String → Except Unit (List GraphRecord)

/-- One external adapter invocation, recorded for call-counting claims.
A `vector` entry stands for the embed-then-search composite inside one
`retrieve_from_vectors` call. -/
inductive AdapterCall where
  | vector : PyStr → Nat → AdapterCall
  | llm : String → String → AdapterCall
  | graph : String → AdapterCall
  | graphQ : String → AdapterCall
deriving DecidableEq

def isVectorCall : AdapterCall → Bool
  | .vector _ _ => true
  | _ => false

/-- The result dict built from one Qdrant hit in `retrieve_from_vectors`. -/
def vhitNode (h : VHit) : Node :=
  { ticket_id := dictGetD h.payload "ticket_id" ""
    node_type := dictGetD h.payload "node_type" ""
    text := dictGetD h.payload "text" ""
    score := h.score
    source := "vector"
    vector_id := h.id
    node_id := dictGetD h.payload "node_id" "" }

/-- The method `RetrievalSystem.retrieve_from_vectors`, instrumented with its call
log.  The whole body is wrapped in `try/except`, so a failure of either
the embedding call or the search call yields `[]`.  The `entities`
parameter is accepted and never read, as in the source; the Qdrant search
carries `score_threshold=0.3`. -/
def retrieve_from_vectorsT (A : Adapters) (query : PyStr)
    (entities : List (String × List PyStr)) (limit : Nat) :
    List Node × List AdapterCall :=
  if ¬ A.hasQdrant then ([], [])
  else
    match A.embed query with
    | .error _ => ([], [.vector query limit])
    | .ok emb =>
      match A.qsearch emb limit (3/10) with
      | .error _ => ([], [.vector query limit])
      | .ok hits => (hits.map vhitNode, [.vector query limit])

/-- The sanitization of the LLM-proposed Cypher in `_extract_subgraph`:
`content.strip()`, then `.replace("```cypher", "").replace("```", "")`,
then `.strip()`. -/
def sanitizeCypher (content : String) : String :=
  pyStrip (pyReplace (pyReplace (pyStrip content) "```cypher" "") "```" "")

/-- The node dict built from one result record in `_extract_subgraph`:
`ticket_id` is always the requested ticket, `text` is
`data.get('text') or data.get('content') or str(data)`, `node_type` is
`data.get('type') or 'SubNode'`. -/
def subgraphNode (ticket_id : String) (data : Row) : Node :=
  { ticket_id := ticket_id
    text := pyOrStr (dictGet data "text") (pyOrStr (dictGet data "content") (strRow data))
    node_type := pyOrStr (dictGet data "type") "SubNode" }

/-- The method `RetrievalSystem._extract_subgraph`, instrumented with its call log.
The generated proposal is sanitized; a proposal whose upper-cased form
does not start with `"MATCH"` yields `[]` without touching the graph; an
exception from either external call yields `[]` (the body is wrapped in
`try/except`). -/
def extract_subgraphT (A : Adapters) (ticket_id query : String) :
    List Node × List AdapterCall :=
  if ¬ A.hasNeo4j then ([], [])
  else
    match A.llm query ticket_id with
    | .error _ => ([], [.llm query ticket_id])
    | .ok content =>
      let cypher := sanitizeCypher content
      if ¬ pyStartsWith (pyUpper cypher) "MATCH" then ([], [.llm query ticket_id])
      else
        match A.graphRun cypher with
        | .error _ => ([], [.llm query ticket_id, .graph cypher])
        | .ok rows =>
          (rows.map (subgraphNode ticket_id), [.llm query ticket_id, .graph cypher])

/-- The `entities` mapping of a processed query: category → list of
string values, in dict insertion order. -/
abbrev EntityMap := List (String × List String)

/-- The processed-query dict as read by `retrieve`
(`processed_query.get('entities', {})`, `.get('original_query', '')`). -/
structure ProcessedQuery where
  entities : EntityMap := []
  original_query : String := ""

/-- The options dict of `retrieve`: recognized keys, absent when `none`
(`options.get` then applies the stated default). -/
structure Options where
  max_sources : Option Nat := none
  confidence_threshold : Option ℚ := none

/-- The two accumulator dicts of the scoring loop: `ticket_scores` and
`ticket_contributions`. -/
structure ScoreState where
  scores : List (String × ℚ)
  contribs : List (String × List Node)

/-- The body of the inner loop of `retrieve` for one vector hit:
`ticket_scores[tid] = ticket_scores.get(tid, 0) + score` and append the
raw hit to `ticket_contributions[tid]`. -/
def scoreStep (st : ScoreState) (node : Node) : ScoreState :=
  { scores := dictSet st.scores node.ticket_id
      (dictGetD st.scores node.ticket_id 0 + node.score)
    contribs := dictSet st.contribs node.ticket_id
      (dictGetD st.contribs node.ticket_id [] ++ [node]) }

/-- The outer scoring loop of `retrieve`: for each `(section, value)` item
of the entity map, skip the reserved `context` section, otherwise issue
one `retrieve_from_vectors(value, {section: [value]}, limit=5)` call and
fold its hits into the accumulators. -/
def scoreLoop (A : Adapters) :
    EntityMap → ScoreState × List AdapterCall → ScoreState × List AdapterCall
  | [], acc => acc
  | (sec, vals) :: rest, acc =>
    if sec = "context" then scoreLoop A rest acc
    else
      let r := retrieve_from_vectorsT A (.strList vals) [(sec, [PyStr.strList vals])] 5
      scoreLoop A rest (r.1.foldl scoreStep acc.1, acc.2 ++ r.2)

/-- All vector hits discovered by the scoring loop, flattened in
discovery order. -/
def hitsOf (A : Adapters) : EntityMap → List Node
  | [] => []
  | (sec, vals) :: rest =>
    if sec = "context" then hitsOf A rest
    else
      (retrieve_from_vectorsT A (.strList vals) [(sec, [PyStr.strList vals])] 5).1
        ++ hitsOf A rest

/-- The adapter calls issued by the scoring loop, in order. -/
def vectorCallsOf (A : Adapters) : EntityMap → List AdapterCall
  | [] => []
  | (sec, vals) :: rest =>
    if sec = "context" then vectorCallsOf A rest
    else
      (retrieve_from_vectorsT A (.strList vals) [(sec, [PyStr.strList vals])] 5).2
        ++ vectorCallsOf A rest

/-- A ranked ticket candidate: `{'ticket_id': …, 'score': …,
'contributions': …}`. -/
structure Candidate where
  ticket_id : String
  score : ℚ
  contributions : List Node
deriving DecidableEq

/-- Building `ranked_tickets`: one candidate per `ticket_scores` item whose
score passes `confidence_threshold`, in dict (= discovery) order. -/
def rankedTickets (st : ScoreState) (confidence_threshold : ℚ) : List Candidate :=
  st.scores.filterMap fun p =>
    if confidence_threshold ≤ p.2 then
      some ⟨p.1, p.2, dictGetD st.contribs p.1 []⟩
    else none

/-- Stable descending insertion by a rational key: the new element goes
after every strictly larger element and before equal ones. -/
def insertByDesc {α : Type} (key : α → ℚ) (x : α) : List α → List α
  | [] => [x]
  | y :: ys => if key x < key y then y :: insertByDesc key x ys else x :: y :: ys

/-- Stable descending sort by a rational key.  Python
`list.sort(key=…, reverse=True)` is a stable descending sort; a stable
descending sort of a list is unique, so this models it exactly. -/
def sortByDesc {α : Type} (key : α → ℚ) : List α → List α
  | [] => []
  | x :: xs => insertByDesc key x (sortByDesc key xs)

/-- The scoring phase of `retrieve`: accumulators after the loop, starting
from empty dicts. -/
def scoredStateAux (A : Adapters) (entities : EntityMap) :
    ScoreState × List AdapterCall :=
  scoreLoop A entities (⟨[], []⟩, [])

def scoredState (A : Adapters) (pq : ProcessedQuery) : ScoreState :=
  (scoredStateAux A pq.entities).1

def scoringCalls (A : Adapters) (pq : ProcessedQuery) : List AdapterCall :=
  (scoredStateAux A pq.entities).2

/-- The list `ranked_tickets` after `sort(key=lambda x: x['score'], reverse=True)`. -/
def rankedCandidates (A : Adapters) (pq : ProcessedQuery) (opts : Options) :
    List Candidate :=
  sortByDesc Candidate.score
    (rankedTickets (scoredState A pq) (opts.confidence_threshold.getD (1/2)))

/-- Truncation `top_k_candidates = ranked_tickets[:k]` with
`k = options.get('max_sources', 5)`.  (The separate
`max_sources = options.get('max_sources', 10)` binding of the source is
never read afterwards.) -/
def topKCandidates (A : Adapters) (pq : ProcessedQuery) (opts : Options) :
    List Candidate :=
  (rankedCandidates A pq opts).take (opts.max_sources.getD 5)

/-- The body of the final loop of `retrieve` for one candidate: if the
subgraph extraction yields nodes, each inherits the ticket score and the
`sigir24_subgraph` tag; otherwise the raw contributions are emitted with
the `sti_contribution_fallback` tag. -/
def emitCandidate (A : Adapters) (original_query : String) (c : Candidate) :
    List Node × List AdapterCall :=
  let r := extract_subgraphT A c.ticket_id original_query
  if r.1.isEmpty then
    (c.contributions.map (fun n => { n with source := "sti_contribution_fallback" }), r.2)
  else
    (r.1.map (fun n => { n with score := c.score, source := "sigir24_subgraph" }), r.2)

/-- The final loop of `retrieve` over the top-k candidates, in ranked
order, concatenating each candidate's emitted nodes. -/
def extractionPhase (A : Adapters) (original_query : String) :
    List Candidate → List Node × List AdapterCall
  | [] => ([], [])
  | c :: cs =>
    let r := emitCandidate A original_query c
    let rest := extractionPhase A original_query cs
    (r.1 ++ rest.1, r.2 ++ rest.2)

/-- The method `RetrievalSystem.retrieve`: the SIGIR-style pipeline — score, filter by
`confidence_threshold` (default 0.5), stable-sort descending, truncate to
`max_sources` (default 5), then subgraph extraction with contribution
fallback. -/
def retrieve (A : Adapters) (pq : ProcessedQuery) (opts : Options) : List Node :=
  (extractionPhase A pq.original_query (topKCandidates A pq opts)).1

/-- The full adapter call log of one `retrieve` run. -/
def retrieveCalls (A : Adapters) (pq : ProcessedQuery) (opts : Options) :
    List AdapterCall :=
  scoringCalls A pq ++ (extractionPhase A pq.original_query (topKCandidates A pq opts)).2

/-- The `issue_data` dict of `retrieve_from_graph` (note: it carries
`title`/`description`/`status`/`priority` and no `text` key). -/
def issueNode (issue : Row) : Node :=
  { ticket_id := dictGetD issue "id" ""
    title := dictGetD issue "title" ""
    description := dictGetD issue "description" ""
    status := dictGetD issue "status" ""
    priority := dictGetD issue "priority" ""
    node_type := "Issue"
    score := 9/10
    source := "graph" }

/-- The `node_data` dict of `retrieve_from_graph` for one related node:
skipped when the node has no labels, typed by its first label. -/
def relatedNode (issue : Row) (gn : GraphNode) : Option Node :=
  match gn.labels with
  | [] => none
  | l :: _ =>
    some { ticket_id := dictGetD issue "id" ""
           node_type := l
           text := strRow gn.props
           score := 7/10
           source := "graph_related" }

/-- All nodes produced from one legacy graph record: the issue itself,
then up to 5 related nodes. -/
def recordNodes (rec : GraphRecord) : List Node :=
  issueNode rec.issue :: (rec.related.take 5).filterMap (relatedNode rec.issue)

/-- The `query_parts` of `retrieve_from_graph`: a containment filter per
non-empty `product` / `error` entity list. -/
def graphQueryParts (entities : EntityMap) : List String :=
  (if ¬ dictGetD entities "product" [] = []
   then ["ANY(product IN $products WHERE product IN i.product)"] else []) ++
  (if ¬ dictGetD entities "error" [] = []
   then ["ANY(error IN $errors WHERE error IN i.tags)"] else [])

/-- The Cypher string of `retrieve_from_graph` (whitespace flattened
relative to the Python triple-quoted literal). -/
def graphCypher (entities : EntityMap) (max_hops : Nat) : String :=
  let query_parts := graphQueryParts entities
  let where_clause :=
    if query_parts = [] then "true" else String.intercalate " AND " query_parts
  "MATCH (i:Issue)\nWHERE " ++ where_clause ++
  "\nOPTIONAL MATCH (i)-[r*1.." ++ toString max_hops ++
  "]-(related)\nRETURN i, collect(DISTINCT related) as related_nodes,\n" ++
  "collect(DISTINCT type(head(r))) as relationship_types\nLIMIT 10"

/-- The method `RetrievalSystem.retrieve_from_graph`, instrumented.  The whole body
is wrapped in `try/except`, so a failing graph query degrades to `[]`.
The `intent` parameter is accepted and never read, as in the source. -/
def retrieve_from_graphT (A : Adapters) (entities : EntityMap)
    (intent : String) (max_hops : Nat := 2) : List Node × List AdapterCall :=
  if ¬ A.hasNeo4j then ([], [])
  else
    let cypher := graphCypher entities max_hops
    match A.graphLegacy cypher (dictGetD entities "product" [])
        (dictGetD entities "error" []) with
    | .error _ => ([], [.graphQ cypher])
    | .ok recs => (recs.foldl (fun acc r => acc ++ recordNodes r) [], [.graphQ cypher])

/-- Modelled from the spec: the composite deduplication key of the legacy
union path — `(ticket_id, node_type, first-100-characters-of-text)`.  The
legacy union/dedup/filter/sort/truncate orchestration is not present in
the current source tree (only its two legs, `retrieve_from_graph` and
`retrieve_from_vectors`, are); it is modelled here from spec §4.4. -/
def dedupKey (n : Node) : String × String × String :=
  (n.ticket_id, n.node_type, pyTake n.text 100)

/-- Modelled from the spec: keep the first node carrying each composite
key, dropping later duplicates. -/
def dedupByKey : List Node → List (String × String × String) → List Node
  | [], _ => []
  | n :: ns, seen =>
    if dedupKey n ∈ seen then dedupByKey ns seen
    else n :: dedupByKey ns (dedupKey n :: seen)

/-- Modelled from the spec: the legacy union — a bounded graph traversal
(2 hops) plus a single whole-query vector search (limit 10). -/
def legacyUnion (A : Adapters) (entities : EntityMap) (intent query : String) :
    List Node :=
  (retrieve_from_graphT A entities intent 2).1 ++
  (retrieve_from_vectorsT A (.str query)
    (entities.map fun p => (p.1, p.2.map PyStr.str)) 10).1

/-- Modelled from the spec: the legacy retrieval path behind the same
`retrieve` contract — union, dedup on the composite key, per-node
confidence filter (default 0.5), per-node descending stable sort,
truncation to `max_sources` (default 5). -/
def legacy_retrieve (A : Adapters) (entities : EntityMap) (intent query : String)
    (opts : Options) : List Node :=
  let deduped := dedupByKey (legacyUnion A entities intent query) []
  let filtered := deduped.filter
    (fun n => opts.confidence_threshold.getD (1/2) ≤ n.score)
  (sortByDesc Node.score filtered).take (opts.max_sources.getD 5)

/-! Concrete adapter stubs and inputs, used to exercise the definitions on
closed instances. -/

/-- A stub whose vector search returns one `T1` hit and whose graph side is
absent. -/
def adapterC2 : Adapters :=
  { hasNeo4j := false, hasQdrant := true,
    embed := fun _ => .ok [],
    qsearch := fun _ _ _ => .ok
      [{ payload := [("ticket_id", "T1"), ("node_type", "Comment"), ("text", "t")],
         score := 1, id := 1 }],
    llm := fun _ _ => .error (),
    graphRun := fun _ => .error (),
    graphLegacy := fun _ _ _ => .error () }

def pqC2 : ProcessedQuery := ⟨[("error", ["404"])], "q"⟩

/-- A stub with a live vector side and a subgraph extractor that always
yields nothing (no graph driver). -/
def adapterC3 : Adapters :=
  { hasNeo4j := false, hasQdrant := true,
    embed := fun _ => .ok [],
    qsearch := fun _ _ _ => .ok
      [{ payload := [("ticket_id", "T1"), ("node_type", "Comment"), ("text", "t")],
         score := 1, id := 1 }],
    llm := fun _ _ => .error (),
    graphRun := fun _ => .error (),
    graphLegacy := fun _ _ _ => .error () }

def pqC3 : ProcessedQuery := ⟨[("error", ["404"])], "q"⟩

/-- A stub whose LLM proposes a traversal that is not anchored at any
requested ticket, and whose graph happily returns a row for it. -/
def adapterC4 : Adapters :=
  { hasNeo4j := true, hasQdrant := false,
    embed := fun _ => .error (),
    qsearch := fun _ _ _ => .error (),
    llm := fun _ _ => .ok "MATCH (n) RETURN n",
    graphRun := fun _ => .ok [[("text", "leaked row"), ("type", "Comment")]],
    graphLegacy := fun _ _ _ => .error () }

/-- A stub whose LLM proposes something that is not a MATCH query. -/
def adapterC4w : Adapters :=
  { hasNeo4j := true, hasQdrant := false,
    embed := fun _ => .error (),
    qsearch := fun _ _ _ => .error (),
    llm := fun _ _ => .ok "SELECT 1",
    graphRun := fun _ => .ok [[("text", "leaked row"), ("type", "Comment")]],
    graphLegacy := fun _ _ _ => .error () }

/-- A stub whose vector search finds nothing. -/
def adapterC5 : Adapters :=
  { hasNeo4j := false, hasQdrant := true,
    embed := fun _ => .ok [],
    qsearch := fun _ _ _ => .ok [],
    llm := fun _ _ => .error (),
    graphRun := fun _ => .error (),
    graphLegacy := fun _ _ _ => .error () }

/-- One category carrying two values. -/
def pqC5 : ProcessedQuery := ⟨[("error", ["404", "500"])], "q"⟩

/-- A stub with both stores live. -/
def adapterC6 : Adapters :=
  { hasNeo4j := true, hasQdrant := true,
    embed := fun _ => .ok [],
    qsearch := fun _ _ _ => .ok [],
    llm := fun _ _ => .ok "MATCH (n) RETURN n",
    graphRun := fun _ => .ok [],
    graphLegacy := fun _ _ _ => .ok [] }

/-- An entity map carrying only the reserved `context` key. -/
def pqC6 : ProcessedQuery := ⟨[("context", ["meta"])], "q"⟩

/-- A stub where every adapter call raises. -/
def adapterC7 : Adapters :=
  { hasNeo4j := true, hasQdrant := true,
    embed := fun _ => .error (),
    qsearch := fun _ _ _ => .error (),
    llm := fun _ _ => .error (),
    graphRun := fun _ => .error (),
    graphLegacy := fun _ _ _ => .error () }

/-- A stub where the embedding succeeds but the search and the graph
execution raise. -/
def adapterC7b : Adapters :=
  { hasNeo4j := true, hasQdrant := true,
    embed := fun _ => .ok [],
    qsearch := fun _ _ _ => .error (),
    llm := fun _ _ => .ok "MATCH (n) RETURN n",
    graphRun := fun _ => .error (),
    graphLegacy := fun _ _ _ => .error () }

def pqC7 : ProcessedQuery := ⟨[("error", ["404"])], "q"⟩

/-- A stub whose vector hit payload has no `ticket_id` field. -/
def adapterC8 : Adapters :=
  { hasNeo4j := false, hasQdrant := true,
    embed := fun _ => .ok [],
    qsearch := fun _ _ _ => .ok
      [{ payload := [("node_type", "Comment"), ("text", "t")], score := 1, id := 7 }],
    llm := fun _ _ => .error (),
    graphRun := fun _ => .error (),
    graphLegacy := fun _ _ _ => .error () }

/-- A stub whose vector hit payloads all carry a non-empty `ticket_id`. -/
def adapterC8w : Adapters :=
  { hasNeo4j := false, hasQdrant := true,
    embed := fun _ => .ok [],
    qsearch := fun _ _ _ => .ok
      [{ payload := [("ticket_id", "T1"), ("node_type", "Comment"), ("text", "t")],
         score := 1, id := 1 }],
    llm := fun _ _ => .error (),
    graphRun := fun _ => .error (),
    graphLegacy := fun _ _ _ => .error () }

def pqC8 : ProcessedQuery := ⟨[("error", ["404"])], "q"⟩

/-- A 100-character text prefix. -/
def xs100 : String :=
  "xxxxxxxxxxxxxxxxxxxxxxxxxxxxxxxxxxxxxxxxxxxxxxxxxxxxxxxxxxxxxxxxxxxxxxxxxxxxxxxxxxxxxxxxxxxxxxxxxx"

/-- A stub whose whole-query vector search returns two hits identical in
`ticket_id`, `node_type` and the first 100 characters of `text`, but with
different full text. -/
def adapterC9 : Adapters :=
  { hasNeo4j := false, hasQdrant := true,
    embed := fun _ => .ok [],
    qsearch := fun _ _ _ => .ok
      [{ payload := [("ticket_id", "T1"), ("node_type", "Comment"),
           ("text", xs100 ++ "a")], score := 1, id := 1 },
       { payload := [("ticket_id", "T1"), ("node_type", "Comment"),
           ("text", xs100 ++ "b")], score := 1, id := 2 }],
    llm := fun _ _ => .error (),
    graphRun := fun _ => .error (),
    graphLegacy := fun _ _ _ => .error () }

/-- The node built from the first of the two near-duplicate hits. -/
def nodeC9a : Node :=
  { ticket_id := "T1", node_type := "Comment", text := xs100 ++ "a",
    score := 1, source := "vector", vector_id := 1 }

/-- The node built from the second near-duplicate hit: same `ticket_id`,
`node_type` and first 100 characters of `text`, different full text. -/
def nodeC9b : Node :=
  { ticket_id := "T1", node_type := "Comment", text := xs100 ++ "b",
    score := 1, source := "vector", vector_id := 2 }

/-- A stub whose LLM proposes a MATCH traversal and whose graph returns a
row carrying only a `content` field (no `type`, no `text`). -/
def adapterC10 : Adapters :=
  { hasNeo4j := true, hasQdrant := false,
    embed := fun _ => .error (),
    qsearch := fun _ _ _ => .error (),
    llm := fun _ _ => .ok "MATCH (n) RETURN n",
    graphRun := fun _ => .ok [[("content", "body")]],
    graphLegacy := fun _ _ _ => .error () }

/-! Helper lemmas: the Python-dict model. -/

theorem dictGet_dictSet {α : Type} (d : List (String × α)) (k k' : String) (v : α) :
    dictGet (dictSet d k v) k' = if k = k' then some v else dictGet d k' := by
  induction d with
  | nil =>
    by_cases hk : k = k' <;> simp [dictSet, dictGet, hk]
  | cons p rest ih =>
    by_cases hp : p.1 = k
    · by_cases hk : k = k'
      · simp [dictSet, dictGet, hp, hk]
      · have hp' : ¬ p.1 = k' := fun h => hk (hp ▸ h)
        simp [dictSet, dictGet, hp, hk, hp']
    · by_cases hq : p.1 = k'
      · have hk : ¬ k = k' := fun h => hp (h ▸ hq)
        have hk' : ¬ k' = k := fun h => hk h.symm
        simp [dictSet, dictGet, hp, hq, hk, hk']
      · simp [dictSet, dictGet, hp, hq, ih]

theorem dictGetD_dictSet {α : Type} (d : List (String × α)) (k k' : String) (v d₀ : α) :
    dictGetD (dictSet d k v) k' d₀ = if k = k' then v else dictGetD d k' d₀ := by
  by_cases hk : k = k' <;> simp [dictGetD, dictGet_dictSet, hk]

theorem mem_dictSet {α : Type} (d : List (String × α)) (k : String) (v : α)
    (p : String × α) (hp : p ∈ dictSet d k v) : p = (k, v) ∨ p ∈ d := by
  induction d with
  | nil => simpa [dictSet] using hp
  | cons q rest ih =>
    by_cases hq : q.1 = k
    · simp only [dictSet, hq, if_true, eq_self_iff_true, List.mem_cons] at hp
      rcases hp with h | h
      · exact Or.inl h
      · exact Or.inr (List.mem_cons_of_mem _ h)
    · simp only [dictSet, hq, if_false, List.mem_cons] at hp
      rcases hp with h | h
      · exact Or.inr (h ▸ List.mem_cons_self _ _)
      · rcases ih h with h' | h'
        · exact Or.inl h'
        · exact Or.inr (List.mem_cons_of_mem _ h')

theorem dictGet_mem {α : Type} (d : List (String × α)) (k : String) (v : α)
    (h : dictGet d k = some v) : (k, v) ∈ d := by
  induction d with
  | nil => simp [dictGet] at h
  | cons p rest ih =>
    by_cases hp : p.1 = k
    · simp only [dictGet, hp, if_true, eq_self_iff_true, Option.some.injEq] at h
      cases p with
      | mk a b =>
        simp only at hp h
        subst hp
        subst h
        exact List.mem_cons_self _ _
    · simp only [dictGet, hp, if_false] at h
      exact List.mem_cons_of_mem _ (ih h)

/-! Helper lemmas: the scoring fold. -/

theorem foldl_scoreStep_scores (hits : List Node) (st : ScoreState) (tid : String) :
    dictGetD (hits.foldl scoreStep st).scores tid 0 =
      dictGetD st.scores tid 0 +
        (((hits.filter (fun n => n.ticket_id = tid))).map Node.score).sum := by
  induction hits generalizing st with
  | nil => simp
  | cons n ns ih =>
    rw [List.foldl_cons, ih]
    by_cases h : n.ticket_id = tid
    · simp only [scoreStep, dictGetD_dictSet, h, if_pos rfl, List.filter_cons,
        decide_eq_true_eq]
      simp [h, add_assoc]
    · simp only [scoreStep, dictGetD_dictSet, h, if_neg h, List.filter_cons,
        decide_eq_true_eq]
      simp [h]

theorem foldl_scoreStep_contribs (hits : List Node) (st : ScoreState) (tid : String) :
    dictGetD (hits.foldl scoreStep st).contribs tid [] =
      dictGetD st.contribs tid [] ++ hits.filter (fun n => n.ticket_id = tid) := by
  induction hits generalizing st with
  | nil => simp
  | cons n ns ih =>
    rw [List.foldl_cons, ih]
    by_cases h : n.ticket_id = tid
    · simp only [scoreStep, dictGetD_dictSet, h, if_pos rfl, List.filter_cons,
        decide_eq_true_eq]
      simp [h]
    · simp only [scoreStep, dictGetD_dictSet, h, if_neg h, List.filter_cons,
        decide_eq_true_eq]
      simp [h]

theorem foldl_scoreStep_mem (hits : List Node) (st : ScoreState)
    (p : String × ℚ) (hp : p ∈ (hits.foldl scoreStep st).scores) :
    p ∈ st.scores ∨ p.1 ∈ hits.map Node.ticket_id := by
  induction hits generalizing st with
  | nil => exact Or.inl hp
  | cons n ns ih =>
    rw [List.foldl_cons] at hp
    rcases ih _ hp with h | h
    · rcases mem_dictSet _ _ _ _ h with h' | h'
      · right
        simp [h']
      · exact Or.inl h'
    · right
      simp [h]

theorem foldl_scoreStep_nonneg (hits : List Node) (st : ScoreState)
    (h0 : ∀ p ∈ st.scores, 0 ≤ p.2) (hh : ∀ n ∈ hits, 0 ≤ n.score) :
    ∀ p ∈ (hits.foldl scoreStep st).scores, 0 ≤ p.2 := by
  induction hits generalizing st with
  | nil => exact h0
  | cons n ns ih =>
    rw [List.foldl_cons]
    refine ih _ ?_ (fun m hm => hh m (List.mem_cons_of_mem _ hm))
    intro p hp
    rcases mem_dictSet _ _ _ _ hp with h' | h'
    · subst h'
      have hd : 0 ≤ dictGetD st.scores n.ticket_id 0 := by
        unfold dictGetD
        cases hg : dictGet st.scores n.ticket_id with
        | none => simp
        | some s =>
          simpa using h0 _ (dictGet_mem _ _ _ hg)
      have := hh n (List.mem_cons_self _ _)
      simpa using add_nonneg hd this
    · exact h0 _ h'

theorem foldl_scoreStep_isSome (hits : List Node) (st : ScoreState) (tid : String) :
    (dictGet (hits.foldl scoreStep st).scores tid).isSome = true ↔
      (dictGet st.scores tid).isSome = true ∨ tid ∈ hits.map Node.ticket_id := by
  induction hits generalizing st with
  | nil => simp
  | cons n ns ih =>
    rw [List.foldl_cons, ih]
    by_cases h : n.ticket_id = tid
    · simp [scoreStep, dictGet_dictSet, h]
    · simp [scoreStep, dictGet_dictSet, h, Ne.symm h]

/-! Helper lemmas: the scoring loop and the vector adapter. -/

theorem scoreLoop_fst (A : Adapters) (entities : EntityMap)
    (st : ScoreState) (log : List AdapterCall) :
    (scoreLoop A entities (st, log)).1 = (hitsOf A entities).foldl scoreStep st := by
  induction entities generalizing st log with
  | nil => simp [scoreLoop, hitsOf]
  | cons p rest ih =>
    cases p with
    | mk sec vals =>
      by_cases h : sec = "context"
      · simp [scoreLoop, hitsOf, h, ih]
      · simp [scoreLoop, hitsOf, h, ih, List.foldl_append]

theorem scoreLoop_snd (A : Adapters) (entities : EntityMap)
    (st : ScoreState) (log : List AdapterCall) :
    (scoreLoop A entities (st, log)).2 = log ++ vectorCallsOf A entities := by
  induction entities generalizing st log with
  | nil => simp [scoreLoop, vectorCallsOf]
  | cons p rest ih =>
    cases p with
    | mk sec vals =>
      by_cases h : sec = "context"
      · simp [scoreLoop, vectorCallsOf, h, ih]
      · simp [scoreLoop, vectorCallsOf, h, ih]

theorem retrieve_from_vectorsT_snd (A : Adapters) (query : PyStr)
    (entities : List (String × List PyStr)) (limit : Nat)
    (hq : A.hasQdrant = true) :
    (retrieve_from_vectorsT A query entities limit).2 = [.vector query limit] := by
  unfold retrieve_from_vectorsT
  simp only [hq, not_true, if_false]
  split
  · rfl
  · split
    · rfl
    · rfl

theorem mem_retrieve_from_vectorsT (A : Adapters) (query : PyStr)
    (entities : List (String × List PyStr)) (limit : Nat) (n : Node)
    (hn : n ∈ (retrieve_from_vectorsT A query entities limit).1) :
    ∃ emb hits h, A.embed query = .ok emb ∧
      A.qsearch emb limit (3/10) = .ok hits ∧ h ∈ hits ∧ n = vhitNode h := by
  unfold retrieve_from_vectorsT at hn
  by_cases hq : A.hasQdrant
  · simp only [hq, not_true, if_false] at hn
    split at hn
    · simp at hn
    · rename_i emb he
      split at hn
      · simp at hn
      · rename_i hits hs
        simp only [List.mem_map] at hn
        rcases hn with ⟨h, hh, hv⟩
        exact ⟨emb, hits, h, he, hs, hh, hv.symm⟩
  · simp [hq] at hn

theorem mem_hitsOf (A : Adapters) (entities : EntityMap) (n : Node)
    (hn : n ∈ hitsOf A entities) :
    ∃ sec vals, (sec, vals) ∈ entities ∧ ¬ sec = "context" ∧
      n ∈ (retrieve_from_vectorsT A (.strList vals) [(sec, [PyStr.strList vals])] 5).1 := by
  induction entities with
  | nil => simp [hitsOf] at hn
  | cons p rest ih =>
    cases p with
    | mk sec vals =>
      by_cases h : sec = "context"
      · simp only [hitsOf, h, if_true, eq_self_iff_true] at hn
        rcases ih (by simpa [hitsOf, h] using hn) with ⟨s, v, hm, hc, hv⟩
        exact ⟨s, v, List.mem_cons_of_mem _ hm, hc, hv⟩
      · simp only [hitsOf, h, if_false, List.mem_append] at hn
        rcases hn with hn | hn
        · exact ⟨sec, vals, List.mem_cons_self _ _, h, hn⟩
        · rcases ih hn with ⟨s, v, hm, hc, hv⟩
          exact ⟨s, v, List.mem_cons_of_mem _ hm, hc, hv⟩

/-! Helper lemmas: the subgraph extractor. -/

theorem extract_subgraphT_tid (A : Adapters) (tid q : String) (n : Node)
    (hn : n ∈ (extract_subgraphT A tid q).1) : n.ticket_id = tid := by
  unfold extract_subgraphT at hn
  by_cases hd : A.hasNeo4j
  · rw [hd] at hn
    simp only [not_true, if_false] at hn
    cases hc : A.llm q tid with
    | error e => simp [hc] at hn
    | ok content =>
      rw [hc] at hn
      by_cases hm : pyStartsWith (pyUpper (sanitizeCypher content)) "MATCH"
      · simp only [hm, not_true, if_false] at hn
        cases hr : A.graphRun (sanitizeCypher content) with
        | error e => simp [hr] at hn
        | ok rows =>
          rw [hr] at hn
          simp only [List.mem_map] at hn
          rcases hn with ⟨row, _, hv⟩
          rw [← hv]
          rfl
      · simp [hm] at hn
  · simp [hd] at hn

theorem extract_subgraphT_llm_error (A : Adapters) (tid q : String)
    (h : A.llm q tid = .error ()) : (extract_subgraphT A tid q).1 = [] := by
  unfold extract_subgraphT
  by_cases hd : A.hasNeo4j
  · rw [hd]
    simp [h]
  · simp [hd]

theorem extract_subgraphT_no_vector (A : Adapters) (tid q : String)
    (c : AdapterCall) (hc : c ∈ (extract_subgraphT A tid q).2) :
    isVectorCall c = false := by
  unfold extract_subgraphT at hc
  by_cases hd : A.hasNeo4j
  · simp only [hd, not_true, if_false] at hc
    split at hc
    · simp only [List.mem_singleton] at hc
      subst hc
      rfl
    · split at hc
      · simp only [List.mem_singleton] at hc
        subst hc
        rfl
      · split at hc
        · simp only [List.mem_cons, List.not_mem_nil, or_false] at hc
          rcases hc with hc | hc <;> (subst hc; rfl)
        · simp only [List.mem_cons, List.not_mem_nil, or_false] at hc
          rcases hc with hc | hc <;> (subst hc; rfl)
  · simp [hd] at hc

/-! Helper lemmas: the stable descending sort. -/

theorem perm_insertByDesc {α : Type} (key : α → ℚ) (x : α) (l : List α) :
    List.Perm (insertByDesc key x l) (x :: l) := by
  induction l with
  | nil => simp [insertByDesc]
  | cons y ys ih =>
    by_cases h : key x < key y
    · simp only [insertByDesc, if_pos h]
      exact (ih.cons y).trans (List.Perm.swap x y ys)
    · simp only [insertByDesc, if_neg h]
      exact List.Perm.refl _

theorem perm_sortByDesc {α : Type} (key : α → ℚ) (l : List α) :
    List.Perm (sortByDesc key l) l := by
  induction l with
  | nil => simp [sortByDesc]
  | cons x xs ih =>
    exact (perm_insertByDesc key x (sortByDesc key xs)).trans (ih.cons x)

theorem pairwise_insertByDesc {α : Type} (key : α → ℚ) (x : α) (l : List α)
    (h : l.Pairwise (fun a b => key b ≤ key a)) :
    (insertByDesc key x l).Pairwise (fun a b => key b ≤ key a) := by
  induction l with
  | nil => simp [insertByDesc]
  | cons y ys ih =>
    rcases List.pairwise_cons.1 h with ⟨hy, hys⟩
    by_cases hxy : key x < key y
    · simp only [insertByDesc, if_pos hxy]
      refine List.pairwise_cons.2 ⟨?_, ih hys⟩
      intro b hb
      rcases List.mem_cons.1 ((perm_insertByDesc key x ys).mem_iff.1 hb) with hb | hb
      · exact hb ▸ le_of_lt hxy
      · exact hy b hb
    · simp only [insertByDesc, if_neg hxy]
      push_neg at hxy
      refine List.pairwise_cons.2 ⟨?_, h⟩
      intro b hb
      rcases List.mem_cons.1 hb with hb | hb
      · exact hb ▸ hxy
      · exact (hy b hb).trans hxy

theorem pairwise_sortByDesc {α : Type} (key : α → ℚ) (l : List α) :
    (sortByDesc key l).Pairwise (fun a b => key b ≤ key a) := by
  induction l with
  | nil => simp [sortByDesc]
  | cons x xs ih => exact pairwise_insertByDesc key x _ ih

theorem filter_insertByDesc {α : Type} (key : α → ℚ) (x : α) (l : List α) (q : ℚ) :
    (insertByDesc key x l).filter (fun z => key z = q) =
      if key x = q then x :: l.filter (fun z => key z = q)
      else l.filter (fun z => key z = q) := by
  induction l with
  | nil => by_cases hx : key x = q <;> simp [insertByDesc, hx]
  | cons y ys ih =>
    by_cases hxy : key x < key y
    · have hy : key y = q → ¬ key x = q := by
        intro hq hx
        rw [hq, ← hx] at hxy
        exact lt_irrefl _ hxy
      simp only [insertByDesc, if_pos hxy, List.filter_cons, ih]
      by_cases hyq : key y = q
      · simp [hyq, hy hyq]
      · simp [hyq]
    · simp only [insertByDesc, if_neg hxy, List.filter_cons]
      by_cases hx : key x = q <;> simp [hx]

theorem filter_sortByDesc {α : Type} (key : α → ℚ) (l : List α) (q : ℚ) :
    (sortByDesc key l).filter (fun z => key z = q) = l.filter (fun z => key z = q) := by
  induction l with
  | nil => simp [sortByDesc]
  | cons x xs ih =>
    rw [sortByDesc, filter_insertByDesc, List.filter_cons]
    by_cases hx : key x = q <;> simp [hx, ih]

/-! Helper lemmas: candidate construction and the final loop. -/

theorem mem_rankedTickets (st : ScoreState) (θ : ℚ) (c : Candidate) :
    c ∈ rankedTickets st θ ↔
      (c.ticket_id, c.score) ∈ st.scores ∧ θ ≤ c.score ∧
        c.contributions = dictGetD st.contribs c.ticket_id [] := by
  unfold rankedTickets
  rw [List.mem_filterMap]
  constructor
  · rintro ⟨p, hp, he⟩
    by_cases hθ : θ ≤ p.2
    · rw [if_pos hθ] at he
      injection he with he
      subst he
      exact ⟨by simpa using hp, hθ, rfl⟩
    · rw [if_neg hθ] at he
      cases he
  · rintro ⟨hm, hθ, hc⟩
    refine ⟨(c.ticket_id, c.score), hm, ?_⟩
    rw [if_pos hθ]
    cases c with
    | mk t s con =>
      simp only at hc
      simp [hc]

theorem emitCandidate_snd (A : Adapters) (oq : String) (c : Candidate) :
    (emitCandidate A oq c).2 = (extract_subgraphT A c.ticket_id oq).2 := by
  simp only [emitCandidate]
  split <;> rfl

theorem extractionPhase_fst (A : Adapters) (oq : String) (cs : List Candidate) :
    (extractionPhase A oq cs).1 = cs.bind (fun c => (emitCandidate A oq c).1) := by
  induction cs with
  | nil => simp [extractionPhase]
  | cons c cs ih => simp [extractionPhase, ih]

theorem extractionPhase_snd (A : Adapters) (oq : String) (cs : List Candidate) :
    (extractionPhase A oq cs).2 =
      cs.bind (fun c => (extract_subgraphT A c.ticket_id oq).2) := by
  induction cs with
  | nil => simp [extractionPhase]
  | cons c cs ih => simp [extractionPhase, ih, emitCandidate_snd]

theorem retrieve_eq_bind (A : Adapters) (pq : ProcessedQuery) (opts : Options) :
    retrieve A pq opts =
      (topKCandidates A pq opts).bind (fun c => (emitCandidate A pq.original_query c).1) := by
  unfold retrieve
  exact extractionPhase_fst A pq.original_query _

theorem retrieveCalls_eq (A : Adapters) (pq : ProcessedQuery) (opts : Options) :
    retrieveCalls A pq opts =
      vectorCallsOf A pq.entities ++
        (topKCandidates A pq opts).bind
          (fun c => (extract_subgraphT A c.ticket_id pq.original_query).2) := by
  unfold retrieveCalls scoringCalls scoredStateAux
  rw [scoreLoop_snd, extractionPhase_snd]
  simp

theorem scoredState_eq (A : Adapters) (pq : ProcessedQuery) :
    scoredState A pq = (hitsOf A pq.entities).foldl scoreStep ⟨[], []⟩ := by
  unfold scoredState scoredStateAux
  exact scoreLoop_fst A pq.entities ⟨[], []⟩ []

theorem mem_topK (A : Adapters) (pq : ProcessedQuery) (opts : Options)
    (c : Candidate) (hc : c ∈ topKCandidates A pq opts) :
    c ∈ rankedTickets (scoredState A pq) (opts.confidence_threshold.getD (1/2)) := by
  unfold topKCandidates rankedCandidates at hc
  exact (perm_sortByDesc Candidate.score _).mem_iff.1 (List.mem_of_mem_take hc)

theorem topK_contributions (A : Adapters) (pq : ProcessedQuery) (opts : Options)
    (c : Candidate) (hc : c ∈ topKCandidates A pq opts) :
    c.contributions = (hitsOf A pq.entities).filter (fun n => n.ticket_id = c.ticket_id) ∧
      c.contributions ≠ [] := by
  rcases (mem_rankedTickets _ _ _).1 (mem_topK A pq opts c hc) with ⟨hm, _, hcon⟩
  rw [scoredState_eq] at hm hcon
  have hfil : c.contributions =
      (hitsOf A pq.entities).filter (fun n => n.ticket_id = c.ticket_id) := by
    rw [hcon, foldl_scoreStep_contribs]
    simp [dictGetD, dictGet]
  refine ⟨hfil, ?_⟩
  rcases foldl_scoreStep_mem _ _ _ hm with h | h
  · simp at h
  · simp only [List.mem_map] at h
    rcases h with ⟨n₀, hn₀, ht⟩
    rw [hfil]
    intro hnil
    have : n₀ ∈ (hitsOf A pq.entities).filter (fun n => n.ticket_id = c.ticket_id) :=
      List.mem_filter.2 ⟨hn₀, by simp [ht]⟩
    rw [hnil] at this
    cases this

theorem retrieve_tid (A : Adapters) (pq : ProcessedQuery) (opts : Options)
    (n : Node) (hn : n ∈ retrieve A pq opts) :
    ∃ c ∈ topKCandidates A pq opts, n.ticket_id = c.ticket_id := by
  rw [retrieve_eq_bind] at hn
  rcases List.mem_bind.1 hn with ⟨c, hc, hnc⟩
  refine ⟨c, hc, ?_⟩
  simp only [emitCandidate] at hnc
  split at hnc
  · simp only [List.mem_map] at hnc
    rcases hnc with ⟨n₀, hn₀, hv⟩
    have ht : n₀.ticket_id = c.ticket_id := by
      have := (topK_contributions A pq opts c hc).1
      rw [this] at hn₀
      simpa using (List.mem_filter.1 hn₀).2
    rw [← hv]
    exact ht
  · simp only [List.mem_map] at hnc
    rcases hnc with ⟨n₀, hn₀, hv⟩
    have ht := extract_subgraphT_tid A c.ticket_id pq.original_query n₀ hn₀
    rw [← hv]
    exact ht

theorem scoreLoop_context (A : Adapters) (entities : EntityMap)
    (acc : ScoreState × List AdapterCall) (h : ∀ p ∈ entities, p.1 = "context") :
    scoreLoop A entities acc = acc := by
  induction entities with
  | nil => rfl
  | cons p rest ih =>
    cases p with
    | mk sec vals =>
      have hs : sec = "context" := h (sec, vals) (List.mem_cons_self _ _)
      simp only [scoreLoop, hs, if_true, eq_self_iff_true]
      exact ih (fun p hp => h p (List.mem_cons_of_mem _ hp))

/-! Helper lemmas: the (spec-modelled) legacy deduplication. -/

theorem dedupByKey_sublist (l : List Node) (seen : List (String × String × String)) :
    List.Sublist (dedupByKey l seen) l := by
  induction l generalizing seen with
  | nil => simp [dedupByKey]
  | cons n ns ih =>
    by_cases h : dedupKey n ∈ seen
    · simp only [dedupByKey, if_pos h]
      exact (ih seen).cons n
    · simp only [dedupByKey, if_neg h]
      exact (ih _).cons₂ n

theorem dedupByKey_nodup (l : List Node) (seen : List (String × String × String)) :
    ((dedupByKey l seen).map dedupKey).Nodup ∧
      ∀ k ∈ (dedupByKey l seen).map dedupKey, k ∉ seen := by
  induction l generalizing seen with
  | nil => simp [dedupByKey]
  | cons n ns ih =>
    by_cases h : dedupKey n ∈ seen
    · simpa only [dedupByKey, if_pos h] using ih seen
    · simp only [dedupByKey, if_neg h, List.map_cons, List.nodup_cons]
      rcases ih (dedupKey n :: seen) with ⟨hnd, hout⟩
      refine ⟨⟨?_, hnd⟩, ?_⟩
      · intro hmem
        exact (hout _ hmem) (List.mem_cons_self _ _)
      · intro k hk
        rcases List.mem_cons.1 hk with hk | hk
        · exact hk ▸ h
        · intro hks
          exact (hout k hk) (List.mem_cons_of_mem _ hks)

theorem dedupByKey_covers (l : List Node) (seen : List (String × String × String))
    (m : Node) (hm : m ∈ l) :
    dedupKey m ∈ seen ∨ dedupKey m ∈ (dedupByKey l seen).map dedupKey := by
  induction l generalizing seen with
  | nil => cases hm
  | cons n ns ih =>
    rcases List.mem_cons.1 hm with hm | hm
    · subst hm
      by_cases h : dedupKey m ∈ seen
      · exact Or.inl h
      · right
        simp [dedupByKey, if_neg h]
    · by_cases h : dedupKey n ∈ seen
      · rcases ih seen hm with h' | h'
        · exact Or.inl h'
        · right
          simpa [dedupByKey, if_pos h] using h'
      · rcases ih (dedupKey n :: seen) hm with h' | h'
        · rcases List.mem_cons.1 h' with h' | h'
          · right
            simp [dedupByKey, if_neg h, h']
          · exact Or.inl h'
        · right
          simp only [dedupByKey, if_neg h, List.map_cons]
          exact List.mem_cons_of_mem _ h'

theorem vectorCallsOf_eq (A : Adapters) (entities : EntityMap)
    (hq : A.hasQdrant = true) :
    vectorCallsOf A entities =
      (entities.filter (fun p => ¬ p.1 = "context")).map
        (fun p => AdapterCall.vector (PyStr.strList p.2) 5) := by
  induction entities with
  | nil => rfl
  | cons p rest ih =>
    cases p with
    | mk sec vals =>
      by_cases h : sec = "context"
      · simp [vectorCallsOf, h, ih]
      · simp [vectorCallsOf, h, ih, retrieve_from_vectorsT_snd A _ _ _ hq]

/-! The claims. -/

/-- C1: In the Ticket Scorer inside `retrieve`, every ticket's aggregate
score equals the sum of the scores of all vector hits attributed to that
ticket — across calls and within one call alike — and its contributions
list is exactly the raw hits carrying that ticket id, in discovery order,
with duplicates kept. -/
theorem ticket_score_summation (A : Adapters) (pq : ProcessedQuery) (tid : String) :
    dictGetD (scoredState A pq).scores tid 0 =
      (((hitsOf A pq.entities).filter (fun n => n.ticket_id = tid)).map Node.score).sum ∧
    dictGetD (scoredState A pq).contribs tid [] =
      (hitsOf A pq.entities).filter (fun n => n.ticket_id = tid) := by
  rw [scoredState_eq]
  constructor
  · rw [foldl_scoreStep_scores]
    simp [dictGetD, dictGet]
  · rw [foldl_scoreStep_contribs]
    simp [dictGetD, dictGet]

/-- C4 counterexample: the extractor executes a proposed traversal that is
not anchored at the requested ticket `TIC-1` (it mentions no ticket at
all), instead of rejecting it with an empty result: the graph call is
issued and its row comes back as evidence. -/
theorem extract_subgraph_executes_unanchored :
    (extract_subgraphT adapterC4 "TIC-1" "q").1 =
      [{ ticket_id := "TIC-1", text := "leaked row", node_type := "Comment" }] ∧
    AdapterCall.graph "MATCH (n) RETURN n" ∈ (extract_subgraphT adapterC4 "TIC-1" "q").2 := by
  decide

/-- C4 amended: the extractor's only gate is the `MATCH` prefix check on
the sanitized proposal (case-insensitive): a proposal not starting with
`MATCH` is discarded — empty result, no graph execution; any proposal
starting with `MATCH` is executed regardless of which ticket it is
anchored at, with both external calls logged. -/
theorem extract_subgraph_match_gate (A : Adapters) (tid q content : String)
    (hn : A.hasNeo4j = true) (hc : A.llm q tid = .ok content) :
    (pyStartsWith (pyUpper (sanitizeCypher content)) "MATCH" = false →
      extract_subgraphT A tid q = ([], [AdapterCall.llm q tid])) ∧
    (pyStartsWith (pyUpper (sanitizeCypher content)) "MATCH" = true →
      (extract_subgraphT A tid q).2 =
        [AdapterCall.llm q tid, AdapterCall.graph (sanitizeCypher content)] ∧
      ∀ rows, A.graphRun (sanitizeCypher content) = .ok rows →
        (extract_subgraphT A tid q).1 = rows.map (subgraphNode tid)) := by
  constructor
  · intro hm
    unfold extract_subgraphT
    simp [hn, hc, hm]
  · intro hm
    constructor
    · unfold extract_subgraphT
      simp only [hn, not_true, if_false, hc, hm]
      split
      · rfl
      · rfl
    · intro rows hr
      unfold extract_subgraphT
      simp [hn, hc, hm, hr]

theorem extract_subgraph_match_gate_witness :
    extract_subgraphT adapterC4w "TIC-1" "q" = ([], [AdapterCall.llm "q" "TIC-1"]) ∧
    (extract_subgraphT adapterC4 "TIC-1" "q").2 =
      [AdapterCall.llm "q" "TIC-1", AdapterCall.graph "MATCH (n) RETURN n"] ∧
    (extract_subgraphT adapterC4 "TIC-1" "q").1 =
      [[("text", "leaked row"), ("type", "Comment")]].map (subgraphNode "TIC-1") :=
  ⟨(extract_subgraph_match_gate adapterC4w "TIC-1" "q" "SELECT 1" rfl rfl).1 (by decide),
   ((extract_subgraph_match_gate adapterC4 "TIC-1" "q" "MATCH (n) RETURN n" rfl rfl).2
      (by decide)).1,
   ((extract_subgraph_match_gate adapterC4 "TIC-1" "q" "MATCH (n) RETURN n" rfl rfl).2
      (by decide)).2 _ rfl⟩

/-- C5 counterexample: for the entity map `{"error": ["404", "500"]}` — one
category with two values — the scorer issues a single vector call carrying
the whole value list, not one call per individual value: the call count is
1, not 2, and the one call is not scoped to a single value. -/
theorem scorer_single_call_per_category :
    retrieveCalls adapterC5 pqC5 {} =
      [AdapterCall.vector (PyStr.strList ["404", "500"]) 5] ∧
    ¬ (retrieveCalls adapterC5 pqC5 {}).length = 2 := by
  decide

/-- C5 amended: the scorer issues exactly one Vector Search Adapter call
per non-`context` `(category, value)` *entry* of the EntityMap — the
entry's whole value list is passed as the query, with limit 5 — and no
call for the reserved `context` category. -/
theorem scorer_one_call_per_entry (A : Adapters) (pq : ProcessedQuery)
    (opts : Options) (hq : A.hasQdrant = true) :
    (retrieveCalls A pq opts).filter isVectorCall =
      (pq.entities.filter (fun p => ¬ p.1 = "context")).map
        (fun p => AdapterCall.vector (PyStr.strList p.2) 5) := by
  rw [retrieveCalls_eq, List.filter_append]
  have h2 : ((topKCandidates A pq opts).bind
      (fun c => (extract_subgraphT A c.ticket_id pq.original_query).2)).filter
        isVectorCall = [] := by
    rw [List.filter_eq_nil]
    intro c hc
    rcases List.mem_bind.1 hc with ⟨cand, _, hcc⟩
    simp [extract_subgraphT_no_vector A cand.ticket_id pq.original_query c hcc]
  rw [h2, List.append_nil, vectorCallsOf_eq A pq.entities hq]
  rw [List.filter_eq_self]
  intro c hc
  rcases List.mem_map.1 hc with ⟨p, _, hp⟩
  rw [← hp]
  rfl

theorem scorer_one_call_per_entry_witness :
    (retrieveCalls adapterC5 pqC5 {}).filter isVectorCall =
      (pqC5.entities.filter (fun p => ¬ p.1 = "context")).map
        (fun p => AdapterCall.vector (PyStr.strList p.2) 5) :=
  scorer_one_call_per_entry adapterC5 pqC5 {} rfl

/-- C6: for an EntityMap that is empty or contains only the reserved
`context` key, `retrieve` returns the empty list and issues zero adapter
calls of any kind. -/
theorem retrieve_empty_entities (A : Adapters) (pq : ProcessedQuery)
    (opts : Options) (h : ∀ p ∈ pq.entities, p.1 = "context") :
    retrieve A pq opts = [] ∧ retrieveCalls A pq opts = [] := by
  have hst : scoredStateAux A pq.entities = (⟨[], []⟩, []) :=
    scoreLoop_context A pq.entities (⟨[], []⟩, []) h
  have hsc : scoredState A pq = ⟨[], []⟩ := by
    unfold scoredState
    rw [hst]
  have htop : topKCandidates A pq opts = [] := by
    unfold topKCandidates rankedCandidates
    rw [hsc]
    simp [rankedTickets, sortByDesc]
  constructor
  · rw [retrieve_eq_bind, htop]
    rfl
  · rw [retrieveCalls_eq, htop]
    have hv : vectorCallsOf A pq.entities = [] := by
      have := congrArg Prod.snd hst
      unfold scoredStateAux at this
      rw [scoreLoop_snd] at this
      simpa using this
    rw [hv]
    rfl

theorem retrieve_empty_entities_witness :
    retrieve adapterC6 pqC6 {} = [] ∧ retrieveCalls adapterC6 pqC6 {} = [] :=
  retrieve_empty_entities adapterC6 pqC6 {} (by decide)

/-- C2: after accumulation, `retrieve` keeps exactly the tickets whose
aggregate score reaches `confidence_threshold` (default 1/2), stable-sorts
them by score descending (a permutation that is sorted and preserves the
relative — i.e. discovery — order of equal scores), truncates to
`max_sources` (default 5) candidates; with `max_sources = 0` the result is
empty, and with `confidence_threshold = 0` every discovered ticket (given
the adapter's non-negative scores) survives the filter. -/
theorem retrieve_filter_sort_truncate (A : Adapters) (pq : ProcessedQuery)
    (opts : Options) :
    (∀ c : Candidate,
        c ∈ rankedTickets (scoredState A pq) (opts.confidence_threshold.getD (1/2)) ↔
          (c.ticket_id, c.score) ∈ (scoredState A pq).scores ∧
            opts.confidence_threshold.getD (1/2) ≤ c.score ∧
            c.contributions = dictGetD (scoredState A pq).contribs c.ticket_id []) ∧
    List.Perm (rankedCandidates A pq opts)
      (rankedTickets (scoredState A pq) (opts.confidence_threshold.getD (1/2))) ∧
    (rankedCandidates A pq opts).Pairwise (fun a b => b.score ≤ a.score) ∧
    (∀ q : ℚ, (rankedCandidates A pq opts).filter (fun c => c.score = q) =
        (rankedTickets (scoredState A pq)
          (opts.confidence_threshold.getD (1/2))).filter (fun c => c.score = q)) ∧
    topKCandidates A pq opts = (rankedCandidates A pq opts).take (opts.max_sources.getD 5) ∧
    (topKCandidates A pq opts).length ≤ opts.max_sources.getD 5 ∧
    (opts.max_sources = some 0 → retrieve A pq opts = []) ∧
    (opts.confidence_threshold = some 0 →
      (∀ n ∈ hitsOf A pq.entities, 0 ≤ n.score) →
      ∀ tid ∈ (hitsOf A pq.entities).map Node.ticket_id,
        tid ∈ (rankedTickets (scoredState A pq)
          (opts.confidence_threshold.getD (1/2))).map Candidate.ticket_id) := by
  refine ⟨fun c => mem_rankedTickets _ _ c,
    perm_sortByDesc Candidate.score _,
    pairwise_sortByDesc Candidate.score _,
    fun q => filter_sortByDesc Candidate.score _ q,
    rfl, ?_, ?_, ?_⟩
  · unfold topKCandidates
    rw [List.length_take]
    exact min_le_left _ _
  · intro h0
    have htop : topKCandidates A pq opts = [] := by
      unfold topKCandidates
      rw [h0]
      rfl
    rw [retrieve_eq_bind, htop]
    rfl
  · intro hθ hpos tid htid
    have hsc := scoredState_eq A pq
    have hsome : (dictGet (scoredState A pq).scores tid).isSome = true := by
      rw [hsc]
      exact (foldl_scoreStep_isSome _ _ _).2 (Or.inr htid)
    obtain ⟨s, hs⟩ := Option.isSome_iff_exists.1 hsome
    have hmem : (tid, s) ∈ (scoredState A pq).scores := dictGet_mem _ _ _ hs
    have hpos' : (0 : ℚ) ≤ s := by
      have h0 : ∀ p ∈ (scoredState A pq).scores, 0 ≤ p.2 := by
        rw [hsc]
        exact foldl_scoreStep_nonneg _ _ (by simp) hpos
      simpa using h0 (tid, s) hmem
    have hcand : (⟨tid, s, dictGetD (scoredState A pq).contribs tid []⟩ : Candidate) ∈
        rankedTickets (scoredState A pq) (opts.confidence_threshold.getD (1/2)) := by
      apply (mem_rankedTickets _ _ _).2
      refine ⟨hmem, ?_, rfl⟩
      rw [hθ]
      simpa using hpos'
    exact List.mem_map.2 ⟨_, hcand, rfl⟩

theorem retrieve_filter_sort_truncate_witness :
    retrieve adapterC2 pqC2 { max_sources := some 0 } = [] ∧
    "T1" ∈ (rankedTickets (scoredState adapterC2 pqC2)
      (({ confidence_threshold := some 0 } : Options).confidence_threshold.getD (1/2))).map
        Candidate.ticket_id :=
  ⟨(retrieve_filter_sort_truncate adapterC2 pqC2 { max_sources := some 0 }).2.2.2.2.2.2.1
      rfl,
   (retrieve_filter_sort_truncate adapterC2 pqC2
      { confidence_threshold := some 0 }).2.2.2.2.2.2.2 rfl (by decide) "T1" (by decide)⟩

/-- C3: each top-k candidate, in ranked order, contributes either its
subgraph nodes — every one re-scored with the ticket's aggregate score and
tagged `sigir24_subgraph` — or, when extraction yields nothing, its raw
contributions tagged `sti_contribution_fallback`; with an extractor that
always returns empty, every returned node carries the fallback tag and the
returned ticket ids are exactly the top-k ticket ids. -/
theorem retrieve_subgraph_fallback (A : Adapters) (pq : ProcessedQuery)
    (opts : Options) :
    retrieve A pq opts =
      (topKCandidates A pq opts).bind (fun c =>
        if ((extract_subgraphT A c.ticket_id pq.original_query).1).isEmpty then
          c.contributions.map (fun n => { n with source := "sti_contribution_fallback" })
        else
          ((extract_subgraphT A c.ticket_id pq.original_query).1).map
            (fun n => { n with score := c.score, source := "sigir24_subgraph" })) ∧
    ((∀ tid q, (extract_subgraphT A tid q).1 = []) →
      (∀ n ∈ retrieve A pq opts, n.source = "sti_contribution_fallback") ∧
      (∀ s, s ∈ (retrieve A pq opts).map Node.ticket_id ↔
        s ∈ (topKCandidates A pq opts).map Candidate.ticket_id)) := by
  have hemit : ∀ c : Candidate, (emitCandidate A pq.original_query c).1 =
      if ((extract_subgraphT A c.ticket_id pq.original_query).1).isEmpty then
        c.contributions.map (fun n => { n with source := "sti_contribution_fallback" })
      else
        ((extract_subgraphT A c.ticket_id pq.original_query).1).map
          (fun n => { n with score := c.score, source := "sigir24_subgraph" }) := by
    intro c
    by_cases hcond : ((extract_subgraphT A c.ticket_id pq.original_query).1).isEmpty
    · simp [emitCandidate, hcond]
    · simp [emitCandidate, hcond]
  constructor
  · rw [retrieve_eq_bind]
    have hfun : (fun c => (emitCandidate A pq.original_query c).1) =
        (fun c : Candidate =>
          if ((extract_subgraphT A c.ticket_id pq.original_query).1).isEmpty then
            c.contributions.map (fun n => { n with source := "sti_contribution_fallback" })
          else
            ((extract_subgraphT A c.ticket_id pq.original_query).1).map
              (fun n => { n with score := c.score, source := "sigir24_subgraph" })) :=
      funext hemit
    rw [hfun]
  · intro hstub
    have hstub' : ∀ c : Candidate, (emitCandidate A pq.original_query c).1 =
        c.contributions.map (fun n => { n with source := "sti_contribution_fallback" }) := by
      intro c
      rw [hemit c, hstub c.ticket_id pq.original_query]
      rfl
    constructor
    · intro n hn
      rw [retrieve_eq_bind] at hn
      rcases List.mem_bind.1 hn with ⟨c, hc, hnc⟩
      rw [hstub' c] at hnc
      rcases List.mem_map.1 hnc with ⟨n₀, _, hv⟩
      rw [← hv]
    · intro s
      constructor
      · intro hs
        rcases List.mem_map.1 hs with ⟨n, hn, hv⟩
        rcases retrieve_tid A pq opts n hn with ⟨c, hc, ht⟩
        exact List.mem_map.2 ⟨c, hc, by rw [← hv, ht]⟩
      · intro hs
        rcases List.mem_map.1 hs with ⟨c, hc, hv⟩
        rcases topK_contributions A pq opts c hc with ⟨hfil, hne⟩
        obtain ⟨n₀, hn₀⟩ := List.exists_mem_of_ne_nil _ hne
        refine List.mem_map.2 ⟨{ n₀ with source := "sti_contribution_fallback" }, ?_, ?_⟩
        · rw [retrieve_eq_bind]
          exact List.mem_bind.2 ⟨c, hc, by
            rw [hstub' c]
            exact List.mem_map.2 ⟨n₀, hn₀, rfl⟩⟩
        · show n₀.ticket_id = s
          have hts : n₀.ticket_id = c.ticket_id := by
            rw [hfil] at hn₀
            simpa using (List.mem_filter.1 hn₀).2
          rw [hts, hv]

theorem retrieve_subgraph_fallback_witness :
    ({ ticket_id := "T1", node_type := "Comment", text := "t", score := 1,
       source := "sti_contribution_fallback", vector_id := 1 } : Node).source =
      "sti_contribution_fallback" ∧
    ("T1" ∈ (retrieve adapterC3 pqC3 {}).map Node.ticket_id ↔
      "T1" ∈ (topKCandidates adapterC3 pqC3 {}).map Candidate.ticket_id) :=
  ⟨((retrieve_subgraph_fallback adapterC3 pqC3 {}).2 (fun tid q => rfl)).1
      { ticket_id := "T1", node_type := "Comment", text := "t", score := 1,
        source := "sti_contribution_fallback", vector_id := 1 } (by decide),
   ((retrieve_subgraph_fallback adapterC3 pqC3 {}).2 (fun tid q => rfl)).2 "T1"⟩

/-- C7: no adapter exception escapes `retrieve` — each wrapped call site
degrades to an empty result for its pair or ticket: a failing embedding or
search yields zero hits for that pair, a failing chat or graph call yields
an empty extraction for that ticket, and with the extraction side fully
failing `retrieve` still returns the (partial) contribution-fallback
evidence list. -/
theorem retrieve_adapter_failures_degrade (A : Adapters) (pq : ProcessedQuery)
    (opts : Options) :
    (∀ q e lim, A.embed q = Except.error () →
      (retrieve_from_vectorsT A q e lim).1 = []) ∧
    (∀ q e lim emb, A.embed q = Except.ok emb →
      A.qsearch emb lim (3/10) = Except.error () →
      (retrieve_from_vectorsT A q e lim).1 = []) ∧
    (∀ tid q, A.llm q tid = Except.error () → (extract_subgraphT A tid q).1 = []) ∧
    (∀ tid q content, A.llm q tid = Except.ok content →
      A.graphRun (sanitizeCypher content) = Except.error () →
      (extract_subgraphT A tid q).1 = []) ∧
    ((∀ q tid, A.llm q tid = Except.error ()) →
      retrieve A pq opts = (topKCandidates A pq opts).bind
        (fun c => c.contributions.map
          (fun n => { n with source := "sti_contribution_fallback" }))) := by
  refine ⟨?_, ?_, ?_, ?_, ?_⟩
  · intro q e lim he
    by_cases hq : A.hasQdrant
    · simp [retrieve_from_vectorsT, hq, he]
    · simp [retrieve_from_vectorsT, hq]
  · intro q e lim emb he hs
    by_cases hq : A.hasQdrant
    · simp [retrieve_from_vectorsT, hq, he, hs]
    · simp [retrieve_from_vectorsT, hq]
  · intro tid q hl
    exact extract_subgraphT_llm_error A tid q hl
  · intro tid q content hl hr
    by_cases hd : A.hasNeo4j
    · unfold extract_subgraphT
      simp only [hd, not_true, if_false, hl]
      split
      · rfl
      · rw [hr]
    · simp [extract_subgraphT, hd]
  · intro hllm
    rw [retrieve_eq_bind]
    have hfun : ∀ c : Candidate, (emitCandidate A pq.original_query c).1 =
        c.contributions.map (fun n => { n with source := "sti_contribution_fallback" }) := by
      intro c
      have hz := extract_subgraphT_llm_error A c.ticket_id pq.original_query
        (hllm pq.original_query c.ticket_id)
      simp [emitCandidate, hz]
    rw [funext hfun]

theorem retrieve_adapter_failures_degrade_witness :
    (retrieve_from_vectorsT adapterC7 (PyStr.str "q") [] 3).1 = [] ∧
    (retrieve_from_vectorsT adapterC7b (PyStr.str "q") [] 3).1 = [] ∧
    (extract_subgraphT adapterC7 "T1" "q").1 = [] ∧
    (extract_subgraphT adapterC7b "T1" "q").1 = [] ∧
    retrieve adapterC7 pqC7 {} = (topKCandidates adapterC7 pqC7 {}).bind
      (fun c => c.contributions.map
        (fun n => { n with source := "sti_contribution_fallback" })) :=
  ⟨(retrieve_adapter_failures_degrade adapterC7 pqC7 {}).1 (PyStr.str "q") [] 3 rfl,
   (retrieve_adapter_failures_degrade adapterC7b pqC7 {}).2.1 (PyStr.str "q") [] 3 [] rfl rfl,
   (retrieve_adapter_failures_degrade adapterC7 pqC7 {}).2.2.1 "T1" "q" rfl,
   (retrieve_adapter_failures_degrade adapterC7b pqC7 {}).2.2.2.1 "T1" "q"
     "MATCH (n) RETURN n" rfl rfl,
   (retrieve_adapter_failures_degrade adapterC7 pqC7 {}).2.2.2.2 (fun q tid => rfl)⟩

/-- C8 counterexample: a vector hit whose payload has no `ticket_id` field
flows through scoring and the contribution fallback into the returned
evidence with an empty `ticket_id`, violating the non-empty invariant. -/
theorem retrieve_empty_ticket_id_example :
    retrieve adapterC8 pqC8 {} =
      [{ ticket_id := "", node_type := "Comment", text := "t", score := 1,
         source := "sti_contribution_fallback", vector_id := 7 }] ∧
    ¬ (∀ n ∈ retrieve adapterC8 pqC8 {}, ¬ n.ticket_id = "") := by
  decide

/-- C8 amended: every node returned by `retrieve` carries the `ticket_id`
of its owning candidate ticket; it is non-empty provided every payload the
vector search returns carries a non-empty `ticket_id` value (hits whose
payload lacks the field get the empty string, which propagates). -/
theorem retrieve_ticket_id_nonempty (A : Adapters) (pq : ProcessedQuery)
    (opts : Options)
    (hpay : ∀ emb lim thr hits, A.qsearch emb lim thr = Except.ok hits →
      ∀ h ∈ hits, ¬ dictGetD h.payload "ticket_id" "" = "") :
    ∀ n ∈ retrieve A pq opts, ¬ n.ticket_id = "" := by
  intro n hn
  rcases retrieve_tid A pq opts n hn with ⟨c, hc, ht⟩
  rw [ht]
  rcases (mem_rankedTickets _ _ _).1 (mem_topK A pq opts c hc) with ⟨hm, -, -⟩
  rw [scoredState_eq] at hm
  rcases foldl_scoreStep_mem _ _ _ hm with h | h
  · simp at h
  · simp only [List.mem_map] at h
    rcases h with ⟨n₀, hn₀, htid⟩
    rcases mem_hitsOf A pq.entities n₀ hn₀ with ⟨sec, vals, -, -, hv⟩
    rcases mem_retrieve_from_vectorsT _ _ _ _ _ hv with
      ⟨emb, hits, hhit, he, hs, hmemhit, hvn⟩
    rw [← htid, hvn]
    exact hpay emb 5 (3/10) hits hs hhit hmemhit

theorem retrieve_ticket_id_nonempty_witness :
    ¬ ({ ticket_id := "T1", node_type := "Comment", text := "t", score := 1,
         source := "sti_contribution_fallback", vector_id := 1 } : Node).ticket_id = "" := by
  refine retrieve_ticket_id_nonempty adapterC8w pqC8 {} ?_ _ (by decide)
  intro emb lim thr hits hh h hm
  injection hh with hh
  subst hh
  simp only [List.mem_singleton] at hm
  subst hm
  decide

/-- C9 (legacy union path, modelled from the spec where absent from the
source): the output of `legacy_retrieve` has pairwise-distinct composite
dedup keys — so two union nodes identical on `(ticket_id, node_type,
first-100-chars-of-text)` but with different full text collapse to one —
is per-node filtered by `confidence_threshold`, sorted by per-node score
descending, truncated to `max_sources`, drawn from the graph/vector union,
and the dedup stage keeps a representative of every union node's key. -/
theorem legacy_retrieve_dedup_spec (A : Adapters) (entities : EntityMap)
    (intent query : String) (opts : Options) :
    ((legacy_retrieve A entities intent query opts).map dedupKey).Nodup ∧
    (legacy_retrieve A entities intent query opts).Pairwise
      (fun a b => b.score ≤ a.score) ∧
    (∀ n ∈ legacy_retrieve A entities intent query opts,
      opts.confidence_threshold.getD (1/2) ≤ n.score) ∧
    (legacy_retrieve A entities intent query opts).length ≤ opts.max_sources.getD 5 ∧
    (∀ n ∈ legacy_retrieve A entities intent query opts,
      n ∈ legacyUnion A entities intent query) ∧
    (∀ m ∈ legacyUnion A entities intent query,
      dedupKey m ∈ (dedupByKey (legacyUnion A entities intent query) []).map dedupKey) := by
  have hded : ((dedupByKey (legacyUnion A entities intent query) []).map dedupKey).Nodup :=
    (dedupByKey_nodup _ _).1
  have hfil : ∀ p : Node → Bool, List.Sublist
      ((dedupByKey (legacyUnion A entities intent query) []).filter p)
      (dedupByKey (legacyUnion A entities intent query) []) :=
    fun p => List.filter_sublist _
  refine ⟨?_, ?_, ?_, ?_, ?_, ?_⟩
  · have h2 : (((dedupByKey (legacyUnion A entities intent query) []).filter
        (fun n => opts.confidence_threshold.getD (1/2) ≤ n.score)).map dedupKey).Nodup :=
      hded.sublist ((hfil _).map _)
    have h3 := ((perm_sortByDesc Node.score
      ((dedupByKey (legacyUnion A entities intent query) []).filter
        (fun n => opts.confidence_threshold.getD (1/2) ≤ n.score))).map dedupKey)
    exact (h3.nodup_iff.2 h2).sublist ((List.take_sublist _ _).map _)
  · exact (pairwise_sortByDesc Node.score _).sublist (List.take_sublist _ _)
  · intro n hn
    have hn' : n ∈ sortByDesc Node.score
        ((dedupByKey (legacyUnion A entities intent query) []).filter
          (fun n => opts.confidence_threshold.getD (1/2) ≤ n.score)) :=
      (List.take_sublist _ _).mem hn
    have hn'' := (perm_sortByDesc Node.score _).mem_iff.1 hn'
    have := (List.mem_filter.1 hn'').2
    simpa using this
  · unfold legacy_retrieve
    rw [List.length_take]
    exact min_le_left _ _
  · intro n hn
    have hn' : n ∈ sortByDesc Node.score
        ((dedupByKey (legacyUnion A entities intent query) []).filter
          (fun n => opts.confidence_threshold.getD (1/2) ≤ n.score)) :=
      (List.take_sublist _ _).mem hn
    have hn'' := (perm_sortByDesc Node.score _).mem_iff.1 hn'
    exact (dedupByKey_sublist _ _).mem ((hfil _).mem hn'')
  · intro m hm
    rcases dedupByKey_covers (legacyUnion A entities intent query) [] m hm with h | h
    · cases h
    · exact h

theorem legacy_retrieve_dedup_spec_witness :
    (((legacy_retrieve adapterC9 [] "i" "q" {}).map dedupKey).Nodup) ∧
    (({} : Options).confidence_threshold.getD (1/2) ≤ nodeC9a.score) ∧
    dedupKey nodeC9b ∈ (dedupByKey (legacyUnion adapterC9 [] "i" "q") []).map dedupKey :=
  ⟨(legacy_retrieve_dedup_spec adapterC9 [] "i" "q" {}).1,
   (legacy_retrieve_dedup_spec adapterC9 [] "i" "q" {}).2.2.1 nodeC9a (by decide),
   (legacy_retrieve_dedup_spec adapterC9 [] "i" "q" {}).2.2.2.2.2 nodeC9b (by decide)⟩

/-- C10: every node the extractor returns has `ticket_id` equal to the
requested ticket — whatever rows the executed traversal produced — the
returned nodes are exactly the executed traversal's rows normalized by
`subgraphNode`, and a row with no `type` field is labeled `SubNode`. -/
theorem extract_subgraph_labels (A : Adapters) (tid q : String) :
    (∀ n ∈ (extract_subgraphT A tid q).1, n.ticket_id = tid) ∧
    (∀ content rows, A.llm q tid = Except.ok content →
      A.graphRun (sanitizeCypher content) = Except.ok rows →
      A.hasNeo4j = true →
      pyStartsWith (pyUpper (sanitizeCypher content)) "MATCH" = true →
      (extract_subgraphT A tid q).1 = rows.map (subgraphNode tid)) ∧
    (∀ row : Row, dictGet row "type" = none →
      (subgraphNode tid row).node_type = "SubNode") := by
  refine ⟨fun n hn => extract_subgraphT_tid A tid q n hn, ?_, ?_⟩
  · intro content rows hl hr hd hm
    unfold extract_subgraphT
    simp [hd, hl, hm, hr]
  · intro row hrow
    unfold subgraphNode pyOrStr
    rw [hrow]

theorem extract_subgraph_labels_witness :
    ({ ticket_id := "TIC-9", text := "body", node_type := "SubNode" } : Node).ticket_id =
      "TIC-9" ∧
    (extract_subgraphT adapterC10 "TIC-9" "q").1 =
      [[("content", "body")]].map (subgraphNode "TIC-9") ∧
    (subgraphNode "TIC-9" [("content", "body")]).node_type = "SubNode" :=
  ⟨(extract_subgraph_labels adapterC10 "TIC-9" "q").1
     { ticket_id := "TIC-9", text := "body", node_type := "SubNode" } (by decide),
   (extract_subgraph_labels adapterC10 "TIC-9" "q").2.1 "MATCH (n) RETURN n"
     [[("content", "body")]] rfl rfl rfl (by decide),
   (extract_subgraph_labels adapterC10 "TIC-9" "q").2.2 [("content", "body")] rfl⟩

end RagKG
